import Mathlib

/-!
Shallow embedding of the llama-scratch inference core (notebook
src/llama-scratch.ipynb) and verification of its specification claims.

Tensors are embedded as total functions from (natural-number) indices to
values; shapes are carried as explicit size arguments, and slicing /
transposition are realized as index arithmetic.  Mutation of the key/value
caches is embedded as explicit state passing.  Real-valued computation
(projections, rotary encoding, softmax) is over ℝ; the sampling pipeline is
polymorphic over a linear ordered field so that it can be run exactly over ℚ.
Python assertions and fatal runtime errors are embedded as Except results.
The tokenizer and checkpoint loading are external collaborators: the
generation entry point takes already-encoded token-id lists and the special
ids as parameters, and the learned weight tensors are parameters.
-/

/-- ModelArgs dataclass: configuration record with the notebook's defaults.
vocab_size defaults to the unset sentinel -1 (later set in the build method).
The device field is omitted: device placement has no numerical content in
this embedding. -/
structure ModelArgs where
  dim : ℕ := 4096
  n_layers : ℕ := 32
  n_heads : ℕ := 32
  n_kv_heads : Option ℕ := none
  vocab_size : ℤ := -1
  multiple_of : ℕ := 256
  ffn_dim_multiplier : Option ℚ := none
  norm_eps : ℝ := 1e-5
  max_batch_size : ℕ := 32
  max_seq_len : ℕ := 2048

/-- theta_pos_freq: precompute the rotary table.  Row m, column i is
torch.polar(1, m * (1 / theta ^ (2 i / head_dim))), i.e. the unit complex
number with that angle.  seq_len only sizes the table (rows m < seq_len);
the function embedding is total in m. -/
noncomputable def theta_pos_freq (head_dim : ℕ) (seq_len : ℕ) (theta : ℝ) :
    ℕ → ℕ → ℂ :=
  fun m i =>
    let freq : ℝ := (m : ℝ) * (1 / theta ^ (((2 * i : ℕ) : ℝ) / (head_dim : ℝ)))
    ⟨Real.cos freq, Real.sin freq⟩

/-- rotary_embeddings applied to one head vector x with one table row:
consecutive components (x (2 i), x (2 i + 1)) are viewed as a complex number,
multiplied by the row's i-th entry, and unpacked back to real components
(view_as_complex / multiply / view_as_real / reshape). -/
noncomputable def rotary_embeddings (x : ℕ → ℝ) (freqs_row : ℕ → ℂ) : ℕ → ℝ :=
  fun j =>
    let z : ℂ := ⟨x (2 * (j / 2)), x (2 * (j / 2) + 1)⟩
    let r : ℂ := z * freqs_row (j / 2)
    if j % 2 = 0 then r.re else r.im

/-- repeat_kv: x of shape (batch, seq, n_kv_heads, head_dim); for n_rep = 1
return x unchanged, otherwise x[:, :, :, None, :]
.expand(b, s, n_kv_heads, n_rep, head_dim).reshape(b, s, n_kv_heads * n_rep,
head_dim).  The merged head axis is embedded through row-major linear
indexing of the (n_kv_heads, n_rep, head_dim) block: entry (h, d) of the
merged view reads linear offset h * head_dim + d, whose (k, r, d) coordinates
in the expanded block are (off / (n_rep * head_dim), off / head_dim % n_rep,
off % head_dim), and the expanded block's (k, r, d) entry is x b s k d.
n_kv_heads is shape-only. -/
def repeat_kv {α : Type} (x : ℕ → ℕ → ℕ → ℕ → α) (n_kv_heads head_dim : ℕ)
    (n_rep : ℕ) : ℕ → ℕ → ℕ → ℕ → α :=
  if n_rep = 1 then x
  else fun b s h d =>
    let off := h * head_dim + d
    x b s (off / (n_rep * head_dim)) (off % head_dim)

/-- nn.Linear without bias: out o = sum over j < in_dim of w o j * x j. -/
noncomputable def linear (in_dim : ℕ) (w : ℕ → ℕ → ℝ) (x : ℕ → ℝ) : ℕ → ℝ :=
  fun o => ∑ j ∈ Finset.range in_dim, w o j * x j

/-- RMSNorm._norm: x * torch.rsqrt(x.pow(2).mean(-1) + eps), over the last
dimension of size dim; rsqrt y = 1 / sqrt y. -/
noncomputable def RMSNorm.norm (dim : ℕ) (eps : ℝ) (x : ℕ → ℝ) : ℕ → ℝ :=
  fun d =>
    x d * (Real.sqrt ((∑ j ∈ Finset.range dim, x j ^ 2) / (dim : ℝ) + eps))⁻¹

/-- RMSNorm.forward: weight * _norm(x). -/
noncomputable def RMSNorm.forward (dim : ℕ) (eps : ℝ) (weight : ℕ → ℝ)
    (x : ℕ → ℝ) : ℕ → ℝ :=
  fun d => weight d * RMSNorm.norm dim eps x d

/-- Key/value cache buffer: indexed by (batch row, position, kv head, head
component).  In the notebook this is a zero-initialized tensor of shape
(max_batch_size, max_seq_len, n_kv_heads, head_dim) owned by each
SelfAttention instance. -/
def Cache : Type := ℕ → ℕ → ℕ → ℕ → ℝ

/-- Learned projection matrices of one SelfAttention instance (wq, wk, wv of
shape (heads * head_dim, dim); wo of shape (dim, heads * head_dim)). -/
structure SelfAttentionWeights where
  wq : ℕ → ℕ → ℝ
  wk : ℕ → ℕ → ℝ
  wv : ℕ → ℕ → ℝ
  wo : ℕ → ℕ → ℝ

/-- Result of one SelfAttention.forward call: the output tensor
(batch, slice position, dim) and the two updated caches. -/
structure AttnResult where
  out : ℕ → ℕ → ℕ → ℝ
  cache_k : Cache
  cache_v : Cache

/-- SelfAttention.forward.  x is the (batch, slice position, dim) input for
the new positions; freqs_complex is the table slice passed by the caller
(slice row s corresponds to absolute table row start_pos + s).  Steps mirror
the source: project to q/k/v, view heads (head h, component d reads flat
feature h * head_dim + d), rotary-encode q and k, write the new k/v slice
into the caches at [start_pos, start_pos + seq_len) for batch rows
< batch_size, read back the history [0, start_pos + seq_len), expand kv
heads with repeat_kv, scaled dot-product scores, softmax over the history
axis, weighted sum of values, concatenate heads, output projection.
Transpositions are realized as index order. -/
noncomputable def SelfAttention.forward (args : ModelArgs)
    (w : SelfAttentionWeights) (cache_k cache_v : Cache)
    (x : ℕ → ℕ → ℕ → ℝ) (batch_size seq_len start_pos : ℕ)
    (freqs_complex : ℕ → ℕ → ℂ) : AttnResult :=
  let n_kv_heads := args.n_kv_heads.getD args.n_heads
  let n_heads_q := args.n_heads
  let n_rep := n_heads_q / n_kv_heads
  let head_dim := args.dim / args.n_heads
  let xq : ℕ → ℕ → ℕ → ℕ → ℝ := fun b s h d =>
    linear args.dim w.wq (x b s) (h * head_dim + d)
  let xk : ℕ → ℕ → ℕ → ℕ → ℝ := fun b s h d =>
    linear args.dim w.wk (x b s) (h * head_dim + d)
  let xv : ℕ → ℕ → ℕ → ℕ → ℝ := fun b s h d =>
    linear args.dim w.wv (x b s) (h * head_dim + d)
  let xq_r : ℕ → ℕ → ℕ → ℕ → ℝ := fun b s h d =>
    rotary_embeddings (xq b s h) (freqs_complex s) d
  let xk_r : ℕ → ℕ → ℕ → ℕ → ℝ := fun b s h d =>
    rotary_embeddings (xk b s h) (freqs_complex s) d
  let cache_k' : Cache := fun b p h d =>
    if b < batch_size ∧ start_pos ≤ p ∧ p < start_pos + seq_len then
      xk_r b (p - start_pos) h d
    else cache_k b p h d
  let cache_v' : Cache := fun b p h d =>
    if b < batch_size ∧ start_pos ≤ p ∧ p < start_pos + seq_len then
      xv b (p - start_pos) h d
    else cache_v b p h d
  let kv_len := start_pos + seq_len
  let keys := repeat_kv cache_k' n_kv_heads head_dim n_rep
  let values := repeat_kv cache_v' n_kv_heads head_dim n_rep
  let scores : ℕ → ℕ → ℕ → ℕ → ℝ := fun b h s p =>
    (∑ d ∈ Finset.range head_dim, xq_r b s h d * keys b p h d) /
      Real.sqrt (head_dim : ℝ)
  let soft : ℕ → ℕ → ℕ → ℕ → ℝ := fun b h s p =>
    Real.exp (scores b h s p) /
      ∑ q ∈ Finset.range kv_len, Real.exp (scores b h s q)
  let outHeads : ℕ → ℕ → ℕ → ℕ → ℝ := fun b h s d =>
    ∑ p ∈ Finset.range kv_len, soft b h s p * values b p h d
  let concat : ℕ → ℕ → ℕ → ℝ := fun b s j =>
    outHeads b (j / head_dim) s (j % head_dim)
  { out := fun b s o => linear (n_heads_q * head_dim) w.wo (concat b s) o
    cache_k := cache_k'
    cache_v := cache_v' }

/-- FeedForward.__init__ hidden width: 4 * dim, reduced by 2/3 via int(),
optionally scaled by ffn_dim_multiplier via int(), rounded up to the nearest
multiple of multiple_of.  int() of the nonnegative values is the floor. -/
def FeedForward.hidden_dim (args : ModelArgs) : ℕ :=
  let h1 := 4 * args.dim
  let h2 := 2 * h1 / 3
  let h3 := match args.ffn_dim_multiplier with
    | some mult => (⌊mult * (h2 : ℚ)⌋).toNat
    | none => h2
  args.multiple_of * ((h3 + args.multiple_of - 1) / args.multiple_of)

/-- F.silu: x * sigmoid(x). -/
noncomputable def silu (t : ℝ) : ℝ := t * (1 / (1 + Real.exp (-t)))

/-- FeedForward.forward: w2(silu(w1 x) * w3 x). -/
noncomputable def FeedForward.forward (args : ModelArgs)
    (w1 w2 w3 : ℕ → ℕ → ℝ) (x : ℕ → ℝ) : ℕ → ℝ :=
  let hidden_dim := FeedForward.hidden_dim args
  let swish := fun j => silu (linear args.dim w1 x j)
  let x_V := fun j => linear args.dim w3 x j
  fun o => linear hidden_dim w2 (fun j => swish j * x_V j) o

/-- Learned parameters of one EncoderBlock: attention projections, the three
feed-forward matrices, and the two normalization scale vectors. -/
structure EncoderBlockWeights where
  attention : SelfAttentionWeights
  w1 : ℕ → ℕ → ℝ
  w2 : ℕ → ℕ → ℝ
  w3 : ℕ → ℕ → ℝ
  attention_norm_weight : ℕ → ℝ
  ffn_norm_weight : ℕ → ℝ

/-- Result of one EncoderBlock.forward call. -/
structure BlockResult where
  out : ℕ → ℕ → ℕ → ℝ
  cache_k : Cache
  cache_v : Cache

/-- EncoderBlock.forward: h = x + attention(attention_norm x);
out = h + feed_forward(ffn_norm h). -/
noncomputable def EncoderBlock.forward (args : ModelArgs)
    (w : EncoderBlockWeights) (cache_k cache_v : Cache)
    (x : ℕ → ℕ → ℕ → ℝ) (batch_size seq_len start_pos : ℕ)
    (freqs_complex : ℕ → ℕ → ℂ) : BlockResult :=
  let normed : ℕ → ℕ → ℕ → ℝ := fun b s =>
    RMSNorm.forward args.dim args.norm_eps w.attention_norm_weight (x b s)
  let ar := SelfAttention.forward args w.attention cache_k cache_v normed
    batch_size seq_len start_pos freqs_complex
  let h : ℕ → ℕ → ℕ → ℝ := fun b s d => x b s d + ar.out b s d
  let normed2 : ℕ → ℕ → ℕ → ℝ := fun b s =>
    RMSNorm.forward args.dim args.norm_eps w.ffn_norm_weight (h b s)
  { out := fun b s d =>
      h b s d + FeedForward.forward args w.w1 w.w2 w.w3 (normed2 b s) d
    cache_k := ar.cache_k
    cache_v := ar.cache_v }

/-- Learned parameters of the Transformer: token embedding rows (indexed by
token id), the per-layer block weights (layer l of the ModuleList), the
final normalization scale, and the output projection. -/
structure TransformerWeights where
  tok_embeddings : ℤ → ℕ → ℝ
  layers : ℕ → EncoderBlockWeights
  norm_weight : ℕ → ℝ
  output : ℕ → ℕ → ℝ

/-- Per-layer cache state of the whole stack: layer l owns the pair
(cache_k, cache_v) of its SelfAttention instance. -/
def Caches : Type := ℕ → Cache × Cache

/-- The rotary table built once at Transformer.__init__:
theta_pos_freq(dim // n_heads, max_seq_len * 2). -/
noncomputable def Transformer.freqs_complex (args : ModelArgs) : ℕ → ℕ → ℂ :=
  theta_pos_freq (args.dim / args.n_heads) (args.max_seq_len * 2) 10000

/-- One iteration of the per-layer loop of Transformer.forward: run layer l
on the running hidden state with layer l's cache pair, and store the updated
pair back at slot l. -/
noncomputable def Transformer.layerStep (args : ModelArgs)
    (w : TransformerWeights) (batch_size seq_len start_pos : ℕ)
    (freqs : ℕ → ℕ → ℂ) (acc : (ℕ → ℕ → ℕ → ℝ) × Caches) (l : ℕ) :
    (ℕ → ℕ → ℕ → ℝ) × Caches :=
  let r := EncoderBlock.forward args (w.layers l) (acc.2 l).1 (acc.2 l).2
    acc.1 batch_size seq_len start_pos freqs
  (r.out, fun l2 => if l2 = l then (r.cache_k, r.cache_v) else acc.2 l2)

/-- Transformer.forward without the python assertions: embed the tokens,
slice freqs_complex[start_pos : start_pos + seq_len], fold the encoder
layers in order (threading each layer's cache pair), final RMSNorm, output
projection to vocabulary logits of size vocab_size.toNat. -/
noncomputable def Transformer.forwardCore (args : ModelArgs)
    (w : TransformerWeights) (caches : Caches) (tokens : ℕ → ℕ → ℤ)
    (batch_size seq_len start_pos : ℕ) : (ℕ → ℕ → ℕ → ℝ) × Caches :=
  let h0 : ℕ → ℕ → ℕ → ℝ := fun b s d => w.tok_embeddings (tokens b s) d
  let freqs : ℕ → ℕ → ℂ := fun s i =>
    Transformer.freqs_complex args (start_pos + s) i
  let res := (List.range args.n_layers).foldl
    (Transformer.layerStep args w batch_size seq_len start_pos freqs)
    (h0, caches)
  let hn : ℕ → ℕ → ℕ → ℝ := fun b s =>
    RMSNorm.forward args.dim args.norm_eps w.norm_weight (res.1 b s)
  (fun b s v => linear args.dim w.output (hn b s) v, res.2)

/-- Transformer.forward: the python assert "Only one token at a time can be
processed" fires for any seq_len other than 1.  The second guard models the
torch RuntimeError raised by the cache slice assignment when the requested
batch rows or position range do not fit the cache buffers (shape mismatch
between the left- and right-hand sides of the slice assignment). -/
noncomputable def Transformer.forward (args : ModelArgs)
    (w : TransformerWeights) (caches : Caches) (tokens : ℕ → ℕ → ℤ)
    (batch_size seq_len start_pos : ℕ) :
    Except String ((ℕ → ℕ → ℕ → ℝ) × Caches) :=
  if seq_len = 1 then
    if batch_size ≤ args.max_batch_size ∧
        start_pos + seq_len ≤ args.max_seq_len then
      Except.ok (Transformer.forwardCore args w caches tokens batch_size
        seq_len start_pos)
    else Except.error ("shape mismatch in cache slice assignment")
  else Except.error ("Only one token at a time can be processed")

/-- Derived shape data produced by a successful Transformer construction
(the fields SelfAttention.__init__ and FeedForward.__init__ compute). -/
structure TransformerShape where
  n_kv_heads : ℕ
  n_heads_q : ℕ
  n_rep : ℕ
  head_dim : ℕ
  hidden_dim : ℕ
  vocab_size : ℕ

/-- Transformer.__init__ as a fallible construction.  In order of execution:
the python assert rejects the unset sentinel vocab_size = -1; nn.Embedding
rejects any other negative vocabulary size; if at least one layer is built,
SelfAttention.__init__ divides by the effective kv head count (n_rep) and by
n_heads (head_dim) and FeedForward.__init__ divides by multiple_of, each a
python ZeroDivisionError when the divisor is 0; finally the rotary table
size dim // n_heads divides by n_heads in every case.  No divisibility of
dim by n_heads or of n_heads by n_kv_heads is ever checked. -/
def Transformer.init (args : ModelArgs) : Except String TransformerShape :=
  if args.vocab_size = -1 then Except.error ("Vocab size must be set")
  else if args.vocab_size < 0 then
    Except.error ("num_embeddings must be non-negative")
  else if 0 < args.n_layers ∧ args.n_kv_heads.getD args.n_heads = 0 then
    Except.error ("integer division or modulo by zero")
  else if 0 < args.n_layers ∧ args.n_heads = 0 then
    Except.error ("integer division or modulo by zero")
  else if 0 < args.n_layers ∧ args.multiple_of = 0 then
    Except.error ("integer division or modulo by zero")
  else if args.n_heads = 0 then
    Except.error ("integer division or modulo by zero")
  else
    Except.ok
      { n_kv_heads := args.n_kv_heads.getD args.n_heads
        n_heads_q := args.n_heads
        n_rep := args.n_heads / args.n_kv_heads.getD args.n_heads
        head_dim := args.dim / args.n_heads
        hidden_dim := FeedForward.hidden_dim args
        vocab_size := args.vocab_size.toNat }

/-- torch.sort(probs, descending=True) on a flat probability vector,
returning (index, value) pairs sorted by descending value (the pair's
second component embeds the sorted values, the first the sort indices). -/
def topPSorted {α : Type} [LinearOrderedField α] (probs : List α) :
    List (ℕ × α) :=
  probs.enum.mergeSort (fun a b => decide (b.2 ≤ a.2))

/-- The nucleus truncation of _sample_top_p: probs_sum = cumsum(probs_sort);
mask = probs_sum - probs_sort > p (the prefix sum strictly before each sorted
slot, per the source comment); probs_sort[mask] = 0. -/
def topPZeroed {α : Type} [LinearOrderedField α] (probs : List α) (p : α) :
    List (ℕ × α) :=
  let sorted := topPSorted probs
  sorted.mapIdx (fun j pair =>
    if (((sorted.take j).map Prod.snd).sum) > p then (pair.1, 0) else pair)

/-- torch.multinomial(weights, 1) with one uniform draw u in [0, 1):
inverse-CDF sampling, the smallest slot j whose inclusive cumulative weight
exceeds u.  A slot of weight zero can never be returned for u in [0, 1)
when the weights sum to 1. -/
def multinomialIdx {α : Type} [LinearOrderedField α] (weights : List α)
    (u : α) : ℕ :=
  ((List.range weights.length).find?
    (fun j => decide (u < ((weights.take (j + 1)).sum)))).getD
    (weights.length - 1)

/-- LLaMA._sample_top_p: sort descending, zero the tail outside the nucleus,
renormalize to sum 1, draw one slot by multinomial, and gather the original
vocabulary index of the drawn slot. -/
def sample_top_p {α : Type} [LinearOrderedField α] (probs : List α) (p : α)
    (u : α) : ℕ :=
  let zeroed := topPZeroed probs p
  let total := (zeroed.map Prod.snd).sum
  let renorm := zeroed.map (fun q => q.2 / total)
  let j := multinomialIdx renorm u
  (zeroed.getD j (0, 0)).1

/-- The candidate set left by the nucleus truncation: the vocabulary indices
whose renormalized probability is positive, i.e. those torch.multinomial can
return.  Listed in sorted (descending-probability) slot order. -/
def topPSelectable {α : Type} [LinearOrderedField α] (probs : List α)
    (p : α) : List ℕ :=
  let zeroed := topPZeroed probs p
  let total := (zeroed.map Prod.snd).sum
  ((zeroed.filter (fun q => decide (0 < q.2 / total))).map Prod.fst)

/-- torch.argmax over logits 0 .. n-1, first maximal index (left fold with
strict improvement, so the lowest index wins ties). -/
noncomputable def argmaxLogits (n : ℕ) (f : ℕ → ℝ) : ℕ :=
  (List.range n).foldl (fun best j => if f best < f j then j else best) 0

/-- torch.softmax over logits 0 .. n-1. -/
noncomputable def softmaxR (n : ℕ) (f : ℕ → ℝ) : ℕ → ℝ :=
  fun j => Real.exp (f j) / ∑ i ∈ Finset.range n, Real.exp (f i)

/-- Per-call generation state of text_completion: the token id grid, the
per-layer caches of the model, and the per-row eos flags. -/
structure DecodeState where
  tokens : ℕ → ℕ → ℤ
  caches : Caches
  eos_reached : ℕ → Bool

/-- The initial token grid of text_completion: a (batch_size, total_len)
grid filled with pad_id, with row k's prefix overwritten by prompt k
(tokens = torch.full(..., pad_id); tokens[k, :len(t)] = t). -/
def initialGrid (prompt_tokens : List (List ℤ)) (pad_id : ℤ) : ℕ → ℕ → ℤ :=
  fun k j => (prompt_tokens.getD k []).getD j pad_id

/-- prompt_tokens_mask = tokens != pad_id, computed once on the initial
grid: true exactly when the grid position holds a non-pad token. -/
def promptMask (prompt_tokens : List (List ℤ)) (pad_id : ℤ) : ℕ → ℕ → Bool :=
  fun k j => decide (initialGrid prompt_tokens pad_id k j ≠ pad_id)

/-- max(len(prompt) for prompt in prompt_tokens). -/
def maxPromptLen (prompt_tokens : List (List ℤ)) : ℕ :=
  (prompt_tokens.map List.length).foldl max 0

/-- total_len = min(max_seq_len, max_gen_len + max_prompt_len), with the
python default max_gen_len = max_seq_len - 1 when the argument is None. -/
def totalLen (args : ModelArgs) (max_gen_len : Option ℕ)
    (prompt_tokens : List (List ℤ)) : ℕ :=
  min args.max_seq_len
    (max_gen_len.getD (args.max_seq_len - 1) + maxPromptLen prompt_tokens)

/-- One iteration of the text_completion decode loop at cur_pos: run
self.model.forward on the one-column slice tokens[:, cur_pos-1 : cur_pos]
at start position cur_pos; pick next_token by nucleus sampling of
softmax(logits / temperature) when temperature > 0, else by argmax; keep the
existing grid token where prompt_tokens_mask[:, cur_pos] is set
(torch.where); write column cur_pos; fold the eos flags (an eos counts only
at a non-prompt position).  u supplies the multinomial draw per (position,
row); the in-loop forward always has seq_len = 1 and a position below
max_seq_len, so the assertion-free core is used. -/
noncomputable def decodeStep (args : ModelArgs) (w : TransformerWeights)
    (prompt_tokens_mask : ℕ → ℕ → Bool) (temperature top_p : ℝ)
    (u : ℕ → ℕ → ℝ) (eos_id : ℤ) (batch_size : ℕ) (cur_pos : ℕ)
    (st : DecodeState) : DecodeState :=
  let slice : ℕ → ℕ → ℤ := fun b _s => st.tokens b (cur_pos - 1)
  let fwd := Transformer.forwardCore args w st.caches slice batch_size 1
    cur_pos
  let logits := fwd.1
  let vocab := args.vocab_size.toNat
  let next_raw : ℕ → ℤ := fun b =>
    if 0 < temperature then
      ((sample_top_p
        ((List.range vocab).map
          (softmaxR vocab (fun v => logits b 0 v / temperature)))
        top_p (u cur_pos b) : ℕ) : ℤ)
    else ((argmaxLogits vocab (logits b 0) : ℕ) : ℤ)
  let next : ℕ → ℤ := fun b =>
    if prompt_tokens_mask b cur_pos then st.tokens b cur_pos else next_raw b
  { tokens := fun b j =>
      if b < batch_size ∧ j = cur_pos then next b else st.tokens b j
    caches := fwd.2
    eos_reached := fun b =>
      st.eos_reached b ||
        (!prompt_tokens_mask b cur_pos && decide (next b = eos_id)) }

/-- The decode loop for cur_pos in range(1, total_len), entered at
cur_pos = 1: run one step, then break once every row's eos flag is set
(if all(eos_reached): break). -/
noncomputable def decodeLoop (args : ModelArgs) (w : TransformerWeights)
    (prompt_tokens_mask : ℕ → ℕ → Bool) (temperature top_p : ℝ)
    (u : ℕ → ℕ → ℝ) (eos_id : ℤ) (batch_size total_len : ℕ) :
    ℕ → DecodeState → DecodeState := fun cur_pos st =>
  if h : cur_pos < total_len then
    let st2 := decodeStep args w prompt_tokens_mask temperature top_p u
      eos_id batch_size cur_pos st
    if ∀ b < batch_size, st2.eos_reached b = true then st2
    else decodeLoop args w prompt_tokens_mask temperature top_p u eos_id
      batch_size total_len (cur_pos + 1) st2
  else st
termination_by cur_pos => total_len - cur_pos

/-- The generation state after the whole decode loop, starting from the
freshly initialized grid, the model's current caches, and all-false eos
flags. -/
noncomputable def finalState (args : ModelArgs) (w : TransformerWeights)
    (caches0 : Caches) (prompt_tokens : List (List ℤ))
    (temperature top_p : ℝ) (max_gen_len : Option ℕ) (pad_id eos_id : ℤ)
    (u : ℕ → ℕ → ℝ) : DecodeState :=
  decodeLoop args w (promptMask prompt_tokens pad_id) temperature top_p u
    eos_id prompt_tokens.length (totalLen args max_gen_len prompt_tokens) 1
    { tokens := initialGrid prompt_tokens pad_id
      caches := caches0
      eos_reached := fun _ => false }

/-- The post-loop per-row truncation: cut the row strictly before its first
eos token when one is present (if eos_id in row: row = row[:index]). -/
def cutRow (eos_id : ℤ) (row : List ℤ) : List ℤ :=
  if row.contains eos_id then row.take (row.indexOf eos_id) else row

/-- LLaMA.text_completion on already-encoded prompts (the tokenizer is an
external collaborator; its encode/decode and pad/eos ids are parameters).
Python asserts: batch size within max_batch_size, then max() over the
prompt lengths (a ValueError on an empty batch), then the longest prompt
within max_seq_len.  The result is the list of rows of the final grid, each
truncated at its first eos token; the rendered text (tokenizer.decode) is
external and omitted. -/
noncomputable def text_completion (args : ModelArgs) (w : TransformerWeights)
    (caches0 : Caches) (prompt_tokens : List (List ℤ))
    (temperature top_p : ℝ) (max_gen_len : Option ℕ) (pad_id eos_id : ℤ)
    (u : ℕ → ℕ → ℝ) : Except String (List (List ℤ)) :=
  if prompt_tokens.length ≤ args.max_batch_size then
    if prompt_tokens.length = 0 then
      Except.error ("max() arg is an empty sequence")
    else if maxPromptLen prompt_tokens ≤ args.max_seq_len then
      let stF := finalState args w caches0 prompt_tokens temperature top_p
        max_gen_len pad_id eos_id u
      let total_len := totalLen args max_gen_len prompt_tokens
      Except.ok
        (((List.range prompt_tokens.length).map
          (fun k => (List.range total_len).map (stF.tokens k))).map
          (cutRow eos_id))
    else Except.error ("prompt length must be less than or equal to max_seq_len")
  else Except.error ("batch size must be less than or equal to max_batch_size")

/-- The zero-initialized cache buffer (torch.zeros). -/
noncomputable def zeroCache : Cache := fun _ _ _ _ => 0

/-- Freshly constructed per-layer caches: every layer starts zeroed. -/
noncomputable def zeroCaches : Caches := fun _ => (zeroCache, zeroCache)

/-- An identity projection matrix. -/
noncomputable def idMat : ℕ → ℕ → ℝ := fun o j => if o = j then 1 else 0

/-- Attention weights that are all identity matrices (a checkpoint is an
external collaborator, so any weight assignment is a legal model state). -/
noncomputable def attnIdWeights : SelfAttentionWeights :=
  { wq := idMat, wk := idMat, wv := idMat, wo := idMat }

/-- All-zero attention weights. -/
noncomputable def attnZeroWeights : SelfAttentionWeights :=
  { wq := fun _ _ => 0, wk := fun _ _ => 0, wv := fun _ _ => 0
    wo := fun _ _ => 0 }

/-- All-zero block weights (used for layers that are never executed). -/
noncomputable def zeroBlock : EncoderBlockWeights :=
  { attention := attnZeroWeights
    w1 := fun _ _ => 0, w2 := fun _ _ => 0, w3 := fun _ _ => 0
    attention_norm_weight := fun _ => 0, ffn_norm_weight := fun _ => 0 }

/-- A two-dimensional single-head configuration for exercising one
SelfAttention instance in isolation (head_dim = 2, one query head, one kv
head, zero norm epsilon so that concrete values stay in closed form). -/
def argsTiny : ModelArgs :=
  { dim := 2, n_layers := 1, n_heads := 1, n_kv_heads := none
    vocab_size := 2, multiple_of := 256, ffn_dim_multiplier := none
    norm_eps := 0, max_batch_size := 1, max_seq_len := 4 }

/-- The unit input vector (1, 0) at every (batch, slice) coordinate. -/
noncomputable def xUnit : ℕ → ℕ → ℕ → ℝ := fun _ _ d => if d = 0 then 1 else 0

/-- The attention output at position 0 computed by one full no-cache forward
pass over the positions [0..0]: fresh zero caches, start_pos = 0, and the
rotary-table slice the Transformer passes for start_pos = 0. -/
noncomputable def fullPassOut : ℝ :=
  (SelfAttention.forward argsTiny attnIdWeights zeroCache zeroCache xUnit
    1 1 0 (fun s i => Transformer.freqs_complex argsTiny (0 + s) i)).out 0 0 0

/-- The attention output for the same single-token sequence computed by the
incremental cache-based path exactly as the text_completion loop drives it:
its first iteration (cur_pos = 1) passes the token at grid index 0 with
start_pos = cur_pos = 1 on the fresh zero caches, so the Transformer slices
rotary-table rows starting at 1. -/
noncomputable def cachePathOut : ℝ :=
  (SelfAttention.forward argsTiny attnIdWeights zeroCache zeroCache xUnit
    1 1 1 (fun s i => Transformer.freqs_complex argsTiny (1 + s) i)).out 0 0 0

/-- A one-dimensional zero-layer configuration whose forward pass has
rational closed-form logits (norm epsilon 0). -/
def argsOne : ModelArgs :=
  { dim := 1, n_layers := 0, n_heads := 1, n_kv_heads := none
    vocab_size := 2, multiple_of := 256, ffn_dim_multiplier := none
    norm_eps := 0, max_batch_size := 32, max_seq_len := 2048 }

/-- Weights for argsOne: token 1 embeds to 1 (others to 0), unit final norm
scale, and an output projection whose logit for vocabulary id 1 is the
(positive) hidden value while the logit for id 0 is 0, so greedy decoding
always produces token 1. -/
noncomputable def wOne : TransformerWeights :=
  { tok_embeddings := fun t _ => if t = 1 then 1 else 0
    layers := fun _ => zeroBlock
    norm_weight := fun _ => 1
    output := fun v _ => if v = 1 then 1 else 0 }

/-- Row-major block indexing: for d < D, linear offset h * D + d inside a
(r, D)-blocked axis falls in block h / r. -/
theorem block_div_eq (h d r D : ℕ) (hd : d < D) :
    (h * D + d) / (r * D) = h / r := by
  rcases Nat.eq_zero_or_pos r with hr | hr
  · subst hr; simp
  · have hD : 0 < D := by omega
    have hmod : h % r < r := Nat.mod_lt _ hr
    have hb : (h % r) * D + d < r * D := by
      calc (h % r) * D + d < (h % r) * D + D := by omega
        _ = (h % r + 1) * D := by ring
        _ ≤ r * D := Nat.mul_le_mul_right D (by omega)
    have hh : h * D + d = r * D * (h / r) + ((h % r) * D + d) := by
      have h0 : h * D = r * D * (h / r) + (h % r) * D := by
        conv_lhs => rw [← Nat.div_add_mod h r]
        ring
      omega
    rw [hh, Nat.mul_add_div (by positivity), Nat.div_eq_of_lt hb, add_zero]

/-- C9: for every tensor x of shape (batch, seq, n_kv_heads, head_dim) and
every n_rep ≥ 1, repeat_kv(x, n_rep) returns a tensor whose expanded
key/value head h equals original head h / n_rep exactly, for all
h < n_kv_heads * n_rep; in particular repeat_kv(x, 1) = x. -/
theorem repeat_kv_spec {α : Type} (x : ℕ → ℕ → ℕ → ℕ → α)
    (n_kv_heads head_dim n_rep b s h d : ℕ) (hrep : 1 ≤ n_rep)
    (hh : h < n_kv_heads * n_rep) (hd : d < head_dim) :
    repeat_kv x n_kv_heads head_dim n_rep b s h d = x b s (h / n_rep) d ∧
    repeat_kv x n_kv_heads head_dim 1 = x := by
  refine ⟨?_, by simp [repeat_kv]⟩
  by_cases h1 : n_rep = 1
  · subst h1; simp [repeat_kv]
  · simp only [repeat_kv, if_neg h1]
    have hm : (h * head_dim + d) % head_dim = d := by
      rw [mul_comm, Nat.mul_add_mod, Nat.mod_eq_of_lt hd]
    rw [hm, block_div_eq h d n_rep head_dim hd]

/-- Witness for repeat_kv_spec at a concrete tensor: shape (1, 1, 2, 2) with
n_rep = 2 and expanded head 3, component 1. -/
theorem repeat_kv_spec_witness :
    1 ≤ 2 ∧ 3 < 2 * 2 ∧ 1 < 2 ∧
    (repeat_kv (fun b s h d => (b, s, h, d)) 2 2 2 0 0 3 1 = (0, 0, 3 / 2, 1) ∧
     repeat_kv (fun b s h d => (b, s, h, d)) 2 2 1 = fun b s h d => (b, s, h, d)) :=
  ⟨by decide, by decide, by decide,
   repeat_kv_spec (fun b s h d => (b, s, h, d)) 2 2 2 0 0 3 1 (by decide)
     (by decide) (by decide)⟩

/-- C10: applying the rotary encoding with the table built by
theta_pos_freq preserves, at every position m and every pair index i, the
L2 norm of the consecutive-pair subvector (x (2 i), x (2 i + 1)), because
each pair is multiplied by a unit-magnitude complex rotation factor. -/
theorem rotary_pair_norm (head_dim seq_len : ℕ) (theta : ℝ) (x : ℕ → ℝ)
    (m i : ℕ) :
    rotary_embeddings x (theta_pos_freq head_dim seq_len theta m) (2 * i) ^ 2 +
      rotary_embeddings x (theta_pos_freq head_dim seq_len theta m)
        (2 * i + 1) ^ 2 =
    x (2 * i) ^ 2 + x (2 * i + 1) ^ 2 := by
  have h1 : 2 * i / 2 = i := by omega
  have h2 : 2 * i % 2 = 0 := by omega
  have h3 : (2 * i + 1) / 2 = i := by omega
  have h4 : (2 * i + 1) % 2 = 1 := by omega
  simp only [rotary_embeddings, theta_pos_freq, h1, h2, h3, h4,
    Complex.mul_re, Complex.mul_im]
  simp only [if_pos, if_neg, one_ne_zero, if_true, if_false, reduceIte]
  have hsc := Real.sin_sq_add_cos_sq
    ((m : ℝ) * (1 / theta ^ (((2 * i : ℕ) : ℝ) / (head_dim : ℝ))))
  linear_combination (x (2 * i) ^ 2 + x (2 * i + 1) ^ 2) * hsc

/-- C4 counterexample: a configuration violating both divisibility
invariants (10 % 3 ≠ 0 and 3 % 2 ≠ 0) with a set vocabulary size constructs
successfully — Transformer.__init__ checks neither invariant. -/
theorem init_accepts_indivisible :
    (Transformer.init { dim := 10, n_layers := 2, n_heads := 3,
                        n_kv_heads := some 2, vocab_size := 5 }).isOk = true ∧
    (10 : ℕ) % 3 ≠ 0 ∧ (3 : ℕ) % 2 ≠ 0 := by
  refine ⟨?_, by decide, by decide⟩
  rfl

/-- C4 amended: model construction fails fatally exactly when the
vocabulary size is unset or otherwise negative (the assert for the -1
sentinel, nn.Embedding for other negatives), when n_heads is zero (python
integer division by zero), or — when at least one layer is built — when
the effective kv-head count or the feed-forward granularity is zero; the
divisibility invariants dim % n_heads == 0 and n_heads % n_kv_heads == 0
are never checked, and construction succeeds for configurations that
violate them. -/
theorem init_ok_iff (args : ModelArgs) :
    (Transformer.init args).isOk = true ↔
      (0 ≤ args.vocab_size ∧ args.n_heads ≠ 0 ∧
        (0 < args.n_layers → args.n_kv_heads.getD args.n_heads ≠ 0 ∧
          args.multiple_of ≠ 0)) := by
  unfold Transformer.init
  split_ifs with h1 h2 h3 h4 h5 h6 <;>
    simp_all [Except.isOk, Except.toBool]

/-- C2 counterexample: a would-be prompt-priming call processing sequence
length 2 at start_pos = 0 is rejected by the assertion in
Transformer.forward; no multi-token call is ever accepted. -/
theorem forward_rejects_priming :
    Transformer.forward argsOne wOne zeroCaches (fun _ _ => 1) 1 2 0 =
      Except.error ("Only one token at a time can be processed") := rfl

/-- C2 amended: Transformer.forward enforces as a fatal precondition that
every call — including the first one — processes sequences of length
exactly 1; there is no full-prompt priming call (the prompt is fed one
token per call by the generation loop), and a call succeeds exactly when
seq_len = 1 and the requested batch rows and position fit the cache
bounds. -/
theorem forward_ok_iff (args : ModelArgs) (w : TransformerWeights)
    (caches : Caches) (tokens : ℕ → ℕ → ℤ)
    (batch_size seq_len start_pos : ℕ) :
    (Transformer.forward args w caches tokens batch_size seq_len
      start_pos).isOk = true ↔
      (seq_len = 1 ∧ batch_size ≤ args.max_batch_size ∧
        start_pos + seq_len ≤ args.max_seq_len) := by
  unfold Transformer.forward
  split_ifs with h1 h2 <;> simp_all [Except.isOk, Except.toBool]

/-- The descending sort of _sample_top_p is pairwise descending in the
probability component. -/
theorem topPSorted_pairwise {α : Type} [LinearOrderedField α]
    (probs : List α) :
    List.Pairwise (fun a b : ℕ × α => b.2 ≤ a.2) (topPSorted probs) := by
  have h := @List.sorted_mergeSort (ℕ × α)
    (fun a b : ℕ × α => decide (b.2 ≤ a.2))
    (fun a b c hab hbc => by
      simp only [decide_eq_true_eq] at *
      exact le_trans hbc hab)
    (fun a b => by
      simp only [Bool.or_eq_true, decide_eq_true_eq]
      exact le_total b.2 a.2)
    probs.enum
  exact h.imp (fun h2 => of_decide_eq_true h2)

/-- The descending sort permutes the enumerated probabilities. -/
theorem topPSorted_perm {α : Type} [LinearOrderedField α] (probs : List α) :
    (topPSorted probs).Perm probs.enum :=
  List.mergeSort_perm probs.enum _

/-- An enumerated pair recovers the list entry at its index. -/
theorem enum_mem_getD {α : Type} (l : List α) (d : α) (i : ℕ) (a : α)
    (h : (i, a) ∈ l.enum) : l.getD i d = a := by
  have h2 : (i, a) ∈ List.enumFrom 0 l := h
  obtain ⟨-, hlt, heq⟩ := List.mem_enumFrom h2
  have hlt2 : i < l.length := by omega
  rw [List.getD_eq_getElem l d hlt2]
  simpa using heq.symm

/-- Every entry that the sort produces carries a probability from the input
distribution. -/
theorem topPSorted_snd_mem {α : Type} [LinearOrderedField α] (probs : List α)
    (pair : ℕ × α) (h : pair ∈ topPSorted probs) : pair.2 ∈ probs := by
  have h2 : pair ∈ probs.enum := (topPSorted_perm probs).mem_iff.mp h
  have h3 := List.mem_map_of_mem Prod.snd h2
  rwa [List.enum_map_snd] at h3

/-- C7: for every probability distribution over the vocabulary (nonnegative
entries summing to 1), the nucleus truncation of _sample_top_p leaves a
nonempty candidate set for every threshold p > 0 (the first sorted slot is
never masked, because its shifted cumulative sum is 0); and whenever p is
small enough that some probability exceeds it — in particular for
arbitrarily small p > 0 — exactly one token remains selectable, and it is a
token of maximal probability. -/
theorem sample_top_p_candidates {α : Type} [LinearOrderedField α]
    (probs : List α) (p : α) (hpos : ∀ q ∈ probs, 0 ≤ q)
    (hsum : probs.sum = 1) (hp : 0 < p) :
    topPSelectable probs p ≠ [] ∧
      ((∃ q ∈ probs, p < q) →
        ∃ t, topPSelectable probs p = [t] ∧
          ∀ r ∈ probs, r ≤ probs.getD t 0) := by
  classical
  have hne : probs ≠ [] := by rintro rfl; simp at hsum
  obtain ⟨hd, rest, hS⟩ : ∃ hd rest, topPSorted probs = hd :: rest := by
    cases hS : topPSorted probs with
    | nil =>
      exfalso
      have hperm := topPSorted_perm probs
      rw [hS] at hperm
      exact hne (List.enum_eq_nil.mp hperm.symm.eq_nil)
    | cons a l => exact ⟨a, l, rfl⟩
  have hpw := topPSorted_pairwise probs
  rw [hS] at hpw
  have hmaxrest : ∀ pair ∈ rest, pair.2 ≤ hd.2 := (List.pairwise_cons.mp hpw).1
  have hrest_sub : ∀ pair ∈ rest, pair ∈ topPSorted probs := by
    intro pair hmem
    rw [hS]
    exact List.mem_cons_of_mem hd hmem
  have hsndpos : ∀ pair ∈ topPSorted probs, (0 : α) ≤ pair.2 :=
    fun pair h => hpos _ (topPSorted_snd_mem probs pair h)
  have hhdmem : hd ∈ topPSorted probs := by
    rw [hS]
    exact List.mem_cons_self hd rest
  have hmaxprobs : ∀ r ∈ probs, r ≤ hd.2 := by
    intro r hr
    conv at hr => rw [← List.enum_map_snd probs]
    obtain ⟨pair, hpair, hpr⟩ := List.mem_map.mp hr
    have hmem := (topPSorted_perm probs).mem_iff.mpr hpair
    rw [← hpr]
    rw [hS] at hmem
    rcases List.mem_cons.mp hmem with heq | hmem2
    · rw [heq]
    · exact hmaxrest pair hmem2
  have hv0 : 0 < hd.2 := by
    by_contra hle
    push_neg at hle
    have hall : ∀ r ∈ probs, r = 0 := fun r hr =>
      le_antisymm (le_trans (hmaxprobs r hr) hle) (hpos r hr)
    rw [List.sum_eq_zero hall] at hsum
    exact zero_ne_one hsum
  obtain ⟨ztail, hZ, hztnn, hztzero⟩ :
      ∃ zt, topPZeroed probs p = hd :: zt ∧ (∀ q ∈ zt, (0 : α) ≤ q.2) ∧
        (p < hd.2 → ∀ q ∈ zt, q.2 = 0) := by
    refine ⟨rest.mapIdx (fun j pair =>
        if (((hd :: rest).take (j + 1)).map Prod.snd).sum > p
        then (pair.1, (0 : α)) else pair), ?_, ?_, ?_⟩
    · simp only [topPZeroed]
      rw [hS, List.mapIdx_cons]
      congr 1
      simp [not_lt.mpr hp.le]
    · intro q hq
      rw [List.mapIdx_eq_enum_map] at hq
      obtain ⟨⟨j, pair⟩, hmem, heq⟩ := List.mem_map.mp hq
      obtain ⟨-, hjlt, hpair⟩ := List.mem_enumFrom hmem
      have hpmem : pair ∈ rest := by
        rw [hpair]
        exact List.getElem_mem _
      simp only [Function.uncurry] at heq
      split_ifs at heq
      · rw [← heq]
      · rw [← heq]
        exact hsndpos pair (hrest_sub pair hpmem)
    · intro hphd q hq
      rw [List.mapIdx_eq_enum_map] at hq
      obtain ⟨⟨j, pair⟩, hmem, heq⟩ := List.mem_map.mp hq
      have hcond : (((hd :: rest).take (j + 1)).map Prod.snd).sum > p := by
        rw [List.take_succ_cons]
        simp only [List.map_cons, List.sum_cons]
        have h0 : 0 ≤ ((rest.take j).map Prod.snd).sum := by
          apply List.sum_nonneg
          intro x hx
          obtain ⟨pr, hpr, hpr2⟩ := List.mem_map.mp hx
          rw [← hpr2]
          exact hsndpos pr (hrest_sub pr (List.take_subset j rest hpr))
        linarith
      simp only [Function.uncurry] at heq
      rw [if_pos hcond] at heq
      rw [← heq]
  have htot : 0 < ((topPZeroed probs p).map Prod.snd).sum := by
    rw [hZ]
    simp only [List.map_cons, List.sum_cons]
    have h0 : 0 ≤ (ztail.map Prod.snd).sum := by
      apply List.sum_nonneg
      intro x hx
      obtain ⟨q, hq, hq2⟩ := List.mem_map.mp hx
      rw [← hq2]
      exact hztnn q hq
    linarith
  have htot2 : 0 < ((hd :: ztail).map Prod.snd).sum := by
    rw [← hZ]
    exact htot
  constructor
  · simp only [topPSelectable]
    rw [hZ]
    rw [List.filter_cons_of_pos
      (by simp only [decide_eq_true_eq]; exact div_pos hv0 htot2)]
    simp
  · rintro ⟨q, hq, hpq⟩
    have hphd : p < hd.2 := lt_of_lt_of_le hpq (hmaxprobs q hq)
    have hzero := hztzero hphd
    refine ⟨hd.1, ?_, ?_⟩
    · simp only [topPSelectable]
      rw [hZ]
      rw [List.filter_cons_of_pos
        (by simp only [decide_eq_true_eq]; exact div_pos hv0 htot2)]
      have hnil : List.filter
          (fun q2 : ℕ × α =>
            decide (0 < q2.2 / (((hd :: ztail).map Prod.snd).sum))) ztail
          = [] := by
        rw [List.filter_eq_nil_iff]
        intro a ha
        simp only [decide_eq_true_eq]
        rw [hzero a ha]
        simp
      rw [hnil]
      simp
    · have hget : probs.getD hd.1 0 = hd.2 := by
        apply enum_mem_getD
        have hmem := (topPSorted_perm probs).mem_iff.mp hhdmem
        simpa using hmem
      rw [hget]
      exact hmaxprobs

/-- Witness for sample_top_p_candidates at the concrete distribution
(1, 0, 0) over a 3-token vocabulary with threshold 1. -/
theorem sample_top_p_candidates_witness :
    (∀ q ∈ [(1 : ℚ), 0, 0], 0 ≤ q) ∧
    ([(1 : ℚ), 0, 0].sum = 1) ∧ ((0 : ℚ) < 1) ∧
    (topPSelectable [(1 : ℚ), 0, 0] 1 ≠ [] ∧
      ((∃ q ∈ [(1 : ℚ), 0, 0], 1 < q) →
        ∃ t, topPSelectable [(1 : ℚ), 0, 0] 1 = [t] ∧
          ∀ r ∈ [(1 : ℚ), 0, 0], r ≤ [(1 : ℚ), 0, 0].getD t 0)) :=
  ⟨by decide, by simp, by decide,
   sample_top_p_candidates [(1 : ℚ), 0, 0] 1 (by decide) (by simp)
     (by decide)⟩

/-- Frame property of one attention call: cache entries outside the written
window [start_pos, start_pos + seq_len) for batch rows < batch_size are
read back unchanged. -/
theorem SelfAttention.forward_cache_frame (args : ModelArgs)
    (w : SelfAttentionWeights) (cache_k cache_v : Cache) (x : ℕ → ℕ → ℕ → ℝ)
    (batch_size seq_len start_pos : ℕ) (freqs_complex : ℕ → ℕ → ℂ)
    (b pos h d : ℕ)
    (hout : ¬ (b < batch_size ∧ start_pos ≤ pos ∧
      pos < start_pos + seq_len)) :
    (SelfAttention.forward args w cache_k cache_v x batch_size seq_len
      start_pos freqs_complex).cache_k b pos h d = cache_k b pos h d ∧
    (SelfAttention.forward args w cache_k cache_v x batch_size seq_len
      start_pos freqs_complex).cache_v b pos h d = cache_v b pos h d := by
  constructor <;> (simp only [SelfAttention.forward]; rw [if_neg hout])

/-- Write effect of one attention call inside the window: the new key entry
is the rotary-encoded wk projection of the slice input, the new value entry
the raw wv projection. -/
theorem SelfAttention.forward_cache_write (args : ModelArgs)
    (w : SelfAttentionWeights) (cache_k cache_v : Cache) (x : ℕ → ℕ → ℕ → ℝ)
    (batch_size seq_len start_pos : ℕ) (freqs_complex : ℕ → ℕ → ℂ)
    (b pos h d : ℕ)
    (hin : b < batch_size ∧ start_pos ≤ pos ∧ pos < start_pos + seq_len) :
    (SelfAttention.forward args w cache_k cache_v x batch_size seq_len
      start_pos freqs_complex).cache_k b pos h d =
      rotary_embeddings
        (fun d2 => linear args.dim w.wk (x b (pos - start_pos))
          (h * (args.dim / args.n_heads) + d2))
        (freqs_complex (pos - start_pos)) d ∧
    (SelfAttention.forward args w cache_k cache_v x batch_size seq_len
      start_pos freqs_complex).cache_v b pos h d =
      linear args.dim w.wv (x b (pos - start_pos))
        (h * (args.dim / args.n_heads) + d) := by
  constructor <;> (simp only [SelfAttention.forward]; rw [if_pos hin])

/-- The caches an EncoderBlock returns are those of its attention call on
the pre-normalized input. -/
theorem EncoderBlock.forward_cache_eq (args : ModelArgs)
    (w : EncoderBlockWeights) (cache_k cache_v : Cache) (x : ℕ → ℕ → ℕ → ℝ)
    (batch_size seq_len start_pos : ℕ) (freqs_complex : ℕ → ℕ → ℂ) :
    (EncoderBlock.forward args w cache_k cache_v x batch_size seq_len
      start_pos freqs_complex).cache_k =
      (SelfAttention.forward args w.attention cache_k cache_v
        (fun b s => RMSNorm.forward args.dim args.norm_eps
          w.attention_norm_weight (x b s)) batch_size seq_len start_pos
        freqs_complex).cache_k ∧
    (EncoderBlock.forward args w cache_k cache_v x batch_size seq_len
      start_pos freqs_complex).cache_v =
      (SelfAttention.forward args w.attention cache_k cache_v
        (fun b s => RMSNorm.forward args.dim args.norm_eps
          w.attention_norm_weight (x b s)) batch_size seq_len start_pos
        freqs_complex).cache_v :=
  ⟨rfl, rfl⟩

/-- Frame property of the per-layer fold: outside the written window no
cache entry of any layer changes. -/
theorem layers_foldl_cache_frame (args : ModelArgs) (w : TransformerWeights)
    (batch_size seq_len start_pos : ℕ) (freqs : ℕ → ℕ → ℂ) (L : List ℕ)
    (acc : (ℕ → ℕ → ℕ → ℝ) × Caches) (l b pos h d : ℕ)
    (hout : ¬ (b < batch_size ∧ start_pos ≤ pos ∧
      pos < start_pos + seq_len)) :
    ((L.foldl (Transformer.layerStep args w batch_size seq_len start_pos
        freqs) acc).2 l).1 b pos h d = ((acc.2 l).1) b pos h d ∧
    ((L.foldl (Transformer.layerStep args w batch_size seq_len start_pos
        freqs) acc).2 l).2 b pos h d = ((acc.2 l).2) b pos h d := by
  induction L generalizing acc with
  | nil => exact ⟨rfl, rfl⟩
  | cons l0 L ih =>
    simp only [List.foldl_cons]
    obtain ⟨ihk, ihv⟩ := ih (Transformer.layerStep args w batch_size seq_len
      start_pos freqs acc l0)
    rw [ihk, ihv]
    simp only [Transformer.layerStep]
    by_cases hl : l = l0
    · subst hl
      rw [if_pos rfl]
      obtain ⟨hek, hev⟩ := EncoderBlock.forward_cache_eq args (w.layers l)
        (acc.2 l).1 (acc.2 l).2 acc.1 batch_size seq_len start_pos freqs
      constructor
      · rw [show ((EncoderBlock.forward args (w.layers l) (acc.2 l).1
            (acc.2 l).2 acc.1 batch_size seq_len start_pos freqs).cache_k,
            (EncoderBlock.forward args (w.layers l) (acc.2 l).1 (acc.2 l).2
            acc.1 batch_size seq_len start_pos freqs).cache_v).1 =
            (EncoderBlock.forward args (w.layers l) (acc.2 l).1 (acc.2 l).2
            acc.1 batch_size seq_len start_pos freqs).cache_k from rfl, hek]
        exact (SelfAttention.forward_cache_frame args (w.layers l).attention
          (acc.2 l).1 (acc.2 l).2 _ batch_size seq_len start_pos freqs
          b pos h d hout).1
      · rw [show ((EncoderBlock.forward args (w.layers l) (acc.2 l).1
            (acc.2 l).2 acc.1 batch_size seq_len start_pos freqs).cache_k,
            (EncoderBlock.forward args (w.layers l) (acc.2 l).1 (acc.2 l).2
            acc.1 batch_size seq_len start_pos freqs).cache_v).2 =
            (EncoderBlock.forward args (w.layers l) (acc.2 l).1 (acc.2 l).2
            acc.1 batch_size seq_len start_pos freqs).cache_v from rfl, hev]
        exact (SelfAttention.forward_cache_frame args (w.layers l).attention
          (acc.2 l).1 (acc.2 l).2 _ batch_size seq_len start_pos freqs
          b pos h d hout).2
    · rw [if_neg hl]
      exact ⟨rfl, rfl⟩

/-- A layer slot not named in the fold's layer list keeps its cache pair. -/
theorem layers_foldl_other_keys (args : ModelArgs) (w : TransformerWeights)
    (batch_size seq_len start_pos : ℕ) (freqs : ℕ → ℕ → ℂ) (L : List ℕ)
    (acc : (ℕ → ℕ → ℕ → ℝ) × Caches) (l : ℕ) (hl : l ∉ L) :
    ((L.foldl (Transformer.layerStep args w batch_size seq_len start_pos
        freqs) acc).2 l) = acc.2 l := by
  induction L generalizing acc with
  | nil => rfl
  | cons l0 L ih =>
    simp only [List.foldl_cons]
    rw [ih _ (fun hmem => hl (List.mem_cons_of_mem l0 hmem))]
    simp only [Transformer.layerStep]
    rw [if_neg (by intro heq; subst heq; exact hl (List.mem_cons_self l L))]

/-- Frame property of one whole forward pass: cache entries of every layer
outside the written window are unchanged. -/
theorem Transformer.forwardCore_cache_frame (args : ModelArgs)
    (w : TransformerWeights) (caches : Caches) (tokens : ℕ → ℕ → ℤ)
    (batch_size seq_len start_pos : ℕ) (l b pos h d : ℕ)
    (hout : ¬ (b < batch_size ∧ start_pos ≤ pos ∧
      pos < start_pos + seq_len)) :
    ((Transformer.forwardCore args w caches tokens batch_size seq_len
        start_pos).2 l).1 b pos h d = (caches l).1 b pos h d ∧
    ((Transformer.forwardCore args w caches tokens batch_size seq_len
        start_pos).2 l).2 b pos h d = (caches l).2 b pos h d := by
  simp only [Transformer.forwardCore]
  exact layers_foldl_cache_frame args w batch_size seq_len start_pos _
    (List.range args.n_layers) _ l b pos h d hout

/-- Write effect of one single-token forward call on the first layer's
caches: position start_pos receives the rotary-encoded (table row
start_pos) wk projection of the pre-normalized embedding of the one token
passed in, and the raw wv projection as value. -/
theorem Transformer.forwardCore_layer0_write (args : ModelArgs)
    (w : TransformerWeights) (caches : Caches) (tokens : ℕ → ℕ → ℤ)
    (batch_size start_pos : ℕ) (b h d : ℕ) (hb : b < batch_size)
    (hl0 : 0 < args.n_layers) :
    ((Transformer.forwardCore args w caches tokens batch_size 1
        start_pos).2 0).1 b start_pos h d =
      rotary_embeddings
        (fun d2 => linear args.dim (w.layers 0).attention.wk
          (RMSNorm.forward args.dim args.norm_eps
            (w.layers 0).attention_norm_weight
            (fun dd => w.tok_embeddings (tokens b 0) dd))
          (h * (args.dim / args.n_heads) + d2))
        (Transformer.freqs_complex args start_pos) d ∧
    ((Transformer.forwardCore args w caches tokens batch_size 1
        start_pos).2 0).2 b start_pos h d =
      linear args.dim (w.layers 0).attention.wv
        (RMSNorm.forward args.dim args.norm_eps
          (w.layers 0).attention_norm_weight
          (fun dd => w.tok_embeddings (tokens b 0) dd))
        (h * (args.dim / args.n_heads) + d) := by
  obtain ⟨m, hm⟩ : ∃ m, args.n_layers = m + 1 :=
    ⟨args.n_layers - 1, by omega⟩
  simp only [Transformer.forwardCore]
  rw [hm, List.range_succ_eq_map, List.foldl_cons]
  rw [layers_foldl_other_keys args w batch_size 1 start_pos _ _ _ 0
    (by simp)]
  simp only [Transformer.layerStep, if_true]
  have hin : b < batch_size ∧ start_pos ≤ start_pos ∧
      start_pos < start_pos + 1 := ⟨hb, le_refl _, by omega⟩
  constructor
  · rw [(EncoderBlock.forward_cache_eq args (w.layers 0) _ _ _
      batch_size 1 start_pos _).1]
    rw [(SelfAttention.forward_cache_write args (w.layers 0).attention _ _ _
      batch_size 1 start_pos _ b start_pos h d hin).1]
    simp
  · rw [(EncoderBlock.forward_cache_eq args (w.layers 0) _ _ _
      batch_size 1 start_pos _).2]
    rw [(SelfAttention.forward_cache_write args (w.layers 0).attention _ _ _
      batch_size 1 start_pos _ b start_pos h d hin).2]
    simp

/-- Fuel-indexed loop invariant: a state predicate preserved by every
decode step executed from position c0 on holds for the loop result. -/
theorem decodeLoop_invariant_aux (args : ModelArgs) (w : TransformerWeights)
    (prompt_tokens_mask : ℕ → ℕ → Bool) (temperature top_p : ℝ)
    (u : ℕ → ℕ → ℝ) (eos_id : ℤ) (batch_size total_len c0 : ℕ)
    (P : DecodeState → Prop)
    (hstep : ∀ cur_pos st, c0 ≤ cur_pos → cur_pos < total_len → P st →
      P (decodeStep args w prompt_tokens_mask temperature top_p u eos_id
        batch_size cur_pos st)) :
    ∀ (fuel cur_pos : ℕ) (st : DecodeState), total_len - cur_pos ≤ fuel →
      c0 ≤ cur_pos → P st →
      P (decodeLoop args w prompt_tokens_mask temperature top_p u eos_id
        batch_size total_len cur_pos st) := by
  intro fuel
  induction fuel with
  | zero =>
    intro cur_pos st hfuel hc hP
    rw [decodeLoop, dif_neg (by omega)]
    exact hP
  | succ n ih =>
    intro cur_pos st hfuel hc hP
    rw [decodeLoop]
    by_cases hlt : cur_pos < total_len
    · rw [dif_pos hlt]
      by_cases hall : ∀ b < batch_size,
          (decodeStep args w prompt_tokens_mask temperature top_p u eos_id
            batch_size cur_pos st).eos_reached b = true
      · rw [if_pos hall]
        exact hstep cur_pos st hc hlt hP
      · rw [if_neg hall]
        exact ih (cur_pos + 1) _ (by omega) (by omega)
          (hstep cur_pos st hc hlt hP)
    · rw [dif_neg hlt]
      exact hP

/-- Loop invariant wrapper starting from the actual loop position. -/
theorem decodeLoop_invariant (args : ModelArgs) (w : TransformerWeights)
    (prompt_tokens_mask : ℕ → ℕ → Bool) (temperature top_p : ℝ)
    (u : ℕ → ℕ → ℝ) (eos_id : ℤ) (batch_size total_len c0 : ℕ)
    (P : DecodeState → Prop)
    (hstep : ∀ cur_pos st, c0 ≤ cur_pos → cur_pos < total_len → P st →
      P (decodeStep args w prompt_tokens_mask temperature top_p u eos_id
        batch_size cur_pos st))
    (cur_pos : ℕ) (st : DecodeState) (hc : c0 ≤ cur_pos) (hP : P st) :
    P (decodeLoop args w prompt_tokens_mask temperature top_p u eos_id
      batch_size total_len cur_pos st) :=
  decodeLoop_invariant_aux args w prompt_tokens_mask temperature top_p u
    eos_id batch_size total_len c0 P hstep (total_len - cur_pos) cur_pos st
    le_rfl hc hP

/-- One decode step leaves every grid position other than (row < batch,
column cur_pos) unchanged. -/
theorem decodeStep_tokens_frame (args : ModelArgs) (w : TransformerWeights)
    (prompt_tokens_mask : ℕ → ℕ → Bool) (temperature top_p : ℝ)
    (u : ℕ → ℕ → ℝ) (eos_id : ℤ) (batch_size cur_pos : ℕ)
    (st : DecodeState) (b j : ℕ)
    (hj : ¬ (b < batch_size ∧ j = cur_pos)) :
    (decodeStep args w prompt_tokens_mask temperature top_p u eos_id
      batch_size cur_pos st).tokens b j = st.tokens b j := by
  simp only [decodeStep]
  rw [if_neg hj]

/-- One decode step preserves the token at every position the prompt mask
marks (torch.where keeps the existing grid token there). -/
theorem decodeStep_tokens_masked (args : ModelArgs) (w : TransformerWeights)
    (prompt_tokens_mask : ℕ → ℕ → Bool) (temperature top_p : ℝ)
    (u : ℕ → ℕ → ℝ) (eos_id : ℤ) (batch_size cur_pos : ℕ)
    (st : DecodeState) (b j : ℕ) (hmask : prompt_tokens_mask b j = true) :
    (decodeStep args w prompt_tokens_mask temperature top_p u eos_id
      batch_size cur_pos st).tokens b j = st.tokens b j := by
  simp only [decodeStep]
  by_cases hbj : b < batch_size ∧ j = cur_pos
  · rw [if_pos hbj]
    obtain ⟨hb, rfl⟩ := hbj
    rw [if_pos hmask]
  · rw [if_neg hbj]

/-- One decode step touches no cache position other than cur_pos, in any
layer. -/
theorem decodeStep_cache_frame (args : ModelArgs) (w : TransformerWeights)
    (prompt_tokens_mask : ℕ → ℕ → Bool) (temperature top_p : ℝ)
    (u : ℕ → ℕ → ℝ) (eos_id : ℤ) (batch_size cur_pos : ℕ)
    (st : DecodeState) (l b pos h d : ℕ) (hpos : pos ≠ cur_pos) :
    ((decodeStep args w prompt_tokens_mask temperature top_p u eos_id
      batch_size cur_pos st).caches l).1 b pos h d =
      (st.caches l).1 b pos h d ∧
    ((decodeStep args w prompt_tokens_mask temperature top_p u eos_id
      batch_size cur_pos st).caches l).2 b pos h d =
      (st.caches l).2 b pos h d := by
  simp only [decodeStep]
  exact Transformer.forwardCore_cache_frame args w st.caches _ batch_size 1
    cur_pos l b pos h d (by rintro ⟨-, h1, h2⟩; omega)

/-- One decode step at cur_pos writes, at the first layer, the key/value
projections of the token read from grid index cur_pos - 1 into cache
position cur_pos, the key rotated with rotary-table row cur_pos. -/
theorem decodeStep_cache_write0 (args : ModelArgs) (w : TransformerWeights)
    (prompt_tokens_mask : ℕ → ℕ → Bool) (temperature top_p : ℝ)
    (u : ℕ → ℕ → ℝ) (eos_id : ℤ) (batch_size cur_pos : ℕ)
    (st : DecodeState) (b h d : ℕ) (hb : b < batch_size)
    (hl0 : 0 < args.n_layers) :
    ((decodeStep args w prompt_tokens_mask temperature top_p u eos_id
        batch_size cur_pos st).caches 0).1 b cur_pos h d =
      rotary_embeddings
        (fun d2 => linear args.dim (w.layers 0).attention.wk
          (RMSNorm.forward args.dim args.norm_eps
            (w.layers 0).attention_norm_weight
            (fun dd => w.tok_embeddings (st.tokens b (cur_pos - 1)) dd))
          (h * (args.dim / args.n_heads) + d2))
        (Transformer.freqs_complex args cur_pos) d ∧
    ((decodeStep args w prompt_tokens_mask temperature top_p u eos_id
        batch_size cur_pos st).caches 0).2 b cur_pos h d =
      linear args.dim (w.layers 0).attention.wv
        (RMSNorm.forward args.dim args.norm_eps
          (w.layers 0).attention_norm_weight
          (fun dd => w.tok_embeddings (st.tokens b (cur_pos - 1)) dd))
        (h * (args.dim / args.n_heads) + d) := by
  simp only [decodeStep]
  exact Transformer.forwardCore_layer0_write args w st.caches _ batch_size
    cur_pos b h d hb hl0

/-- When the three entry assertions pass, text_completion returns the rows
of the final grid, each truncated by cutRow. -/
theorem text_completion_ok (args : ModelArgs) (w : TransformerWeights)
    (caches0 : Caches) (prompt_tokens : List (List ℤ))
    (temperature top_p : ℝ) (max_gen_len : Option ℕ) (pad_id eos_id : ℤ)
    (u : ℕ → ℕ → ℝ) (h1 : 0 < prompt_tokens.length)
    (h2 : prompt_tokens.length ≤ args.max_batch_size)
    (h3 : maxPromptLen prompt_tokens ≤ args.max_seq_len) :
    text_completion args w caches0 prompt_tokens temperature top_p
      max_gen_len pad_id eos_id u =
      Except.ok (((List.range prompt_tokens.length).map
        (fun k => (List.range (totalLen args max_gen_len prompt_tokens)).map
          ((finalState args w caches0 prompt_tokens temperature top_p
            max_gen_len pad_id eos_id u).tokens k))).map
        (cutRow eos_id)) := by
  unfold text_completion
  rw [if_pos h2, if_neg (by omega), if_pos h3]

/-- getD of a mapped range evaluates the function. -/
theorem getD_map_range {β : Type} (n k : ℕ) (f : ℕ → β) (d : β)
    (hk : k < n) : ((List.range n).map f).getD k d = f k := by
  rw [List.getD_eq_getElem _ _ (by simpa using hk)]
  simp

/-- cutRow returns a prefix of its input: every surviving index holds the
original entry. -/
theorem cutRow_getD (eos : ℤ) (row : List ℤ) (j : ℕ) (d : ℤ)
    (hj : j < (cutRow eos row).length) :
    (cutRow eos row).getD j d = row.getD j d := by
  unfold cutRow at hj ⊢
  split_ifs at hj ⊢ with hc
  · have hj2 : j < row.length := by
      have hlen := List.length_take (row.indexOf eos) row
      omega
    rw [List.getD_eq_getElem _ _ hj, List.getD_eq_getElem _ _ hj2]
    simp [List.getElem_take]
  · rfl

/-- cutRow never lengthens a row. -/
theorem cutRow_length_le (eos : ℤ) (row : List ℤ) :
    (cutRow eos row).length ≤ row.length := by
  unfold cutRow
  split_ifs with hc
  · rw [List.length_take]
    exact min_le_right _ _
  · exact le_refl _

/-- Every position the prompt mask marks keeps its initial grid token
through the whole decode loop. -/
theorem finalState_mask_tokens (args : ModelArgs) (w : TransformerWeights)
    (caches0 : Caches) (prompt_tokens : List (List ℤ))
    (temperature top_p : ℝ) (max_gen_len : Option ℕ) (pad_id eos_id : ℤ)
    (u : ℕ → ℕ → ℝ) (b j : ℕ)
    (hmask : promptMask prompt_tokens pad_id b j = true) :
    (finalState args w caches0 prompt_tokens temperature top_p max_gen_len
      pad_id eos_id u).tokens b j = initialGrid prompt_tokens pad_id b j := by
  unfold finalState
  exact decodeLoop_invariant args w (promptMask prompt_tokens pad_id)
    temperature top_p u eos_id prompt_tokens.length
    (totalLen args max_gen_len prompt_tokens) 1
    (fun s => s.tokens b j = initialGrid prompt_tokens pad_id b j)
    (fun cur_pos st _ _ hP =>
      (decodeStep_tokens_masked args w (promptMask prompt_tokens pad_id)
        temperature top_p u eos_id prompt_tokens.length cur_pos st b j
        hmask).trans hP)
    1 _ le_rfl rfl

/-- Logits of the zero-layer one-dimensional model on a slice holding token
1: vocabulary id 0 scores 0, id 1 scores 1. -/
theorem wOne_logits (caches : Caches) (tokens : ℕ → ℕ → ℤ)
    (start_pos b s : ℕ) (htok : tokens b s = 1) :
    (Transformer.forwardCore argsOne wOne caches tokens 1 1 start_pos).1
      b s 0 = 0 ∧
    (Transformer.forwardCore argsOne wOne caches tokens 1 1 start_pos).1
      b s 1 = 1 := by
  constructor <;>
    simp [Transformer.forwardCore, argsOne, wOne, linear, RMSNorm.forward,
      RMSNorm.norm, htok, Finset.sum_range_one]

/-- torch.argmax over two logits returns index 1 when it strictly wins. -/
theorem argmax_two (f : ℕ → ℝ) (h01 : f 0 < f 1) : argmaxLogits 2 f = 1 := by
  simp only [argmaxLogits]
  rw [show List.range 2 = [0, 1] from rfl]
  simp only [List.foldl_cons, List.foldl_nil]
  rw [if_neg (lt_irrefl _), if_pos h01]

/-- One decode step of the concrete run: at cur_pos = 1 on a state whose
grid holds token 1 at index 0, greedy decoding commits token 1 at the
(non-prompt) grid position 1, keeps position 0, and leaves the eos flag of
row 0 unchanged. -/
theorem step_one_facts (st : DecodeState) (htok : st.tokens 0 0 = 1) :
    (decodeStep argsOne wOne (promptMask [[1, 0]] 0) 0 (9/10)
      (fun _ _ => 0) 5 1 1 st).tokens 0 1 = 1 ∧
    (decodeStep argsOne wOne (promptMask [[1, 0]] 0) 0 (9/10)
      (fun _ _ => 0) 5 1 1 st).tokens 0 0 = st.tokens 0 0 ∧
    (decodeStep argsOne wOne (promptMask [[1, 0]] 0) 0 (9/10)
      (fun _ _ => 0) 5 1 1 st).eos_reached 0 = st.eos_reached 0 := by
  obtain ⟨hl0, hl1⟩ := wOne_logits st.caches (fun b2 _ => st.tokens b2 0) 1
    0 0 htok
  have hmaskF : promptMask [[1, 0]] 0 0 1 = false := by decide
  have hargmax : argmaxLogits ((2 : ℤ)).toNat
      ((Transformer.forwardCore argsOne wOne st.caches
        (fun b2 _ => st.tokens b2 0) 1 1 1).1 0 0) = 1 := by
    rw [show ((2 : ℤ)).toNat = 2 from rfl]
    exact argmax_two _ (by rw [hl0, hl1]; norm_num)
  simp only [argsOne, Int.reduceToNat] at hargmax
  refine ⟨?_, ?_, ?_⟩
  · simp [decodeStep, hmaskF, lt_self_iff_false, argsOne, hargmax]
  · exact decodeStep_tokens_frame argsOne wOne (promptMask [[1, 0]] 0) 0
      (9/10) (fun _ _ => 0) 5 1 1 st 0 0 (by simp)
  · simp [decodeStep, hmaskF, lt_self_iff_false, argsOne, hargmax]

/-- A complete concrete generation run: prompt [1, 0] whose second token
equals the pad id 0, greedy decoding with the zero-layer model.  The single
decode step treats grid position 1 as a generated slot (its token equals
pad) and overwrites it with the sampled token 1. -/
theorem run_one :
    text_completion argsOne wOne zeroCaches [[1, 0]] 0 (9/10) (some 0) 0 5
      (fun _ _ => 0) = Except.ok [[1, 1]] := by
  have htl : totalLen argsOne (some 0) [[1, 0]] = 2 := by decide
  have h00 : (initialGrid [[1, 0]] 0 : ℕ → ℕ → ℤ) 0 0 = 1 := by decide
  have hst : (finalState argsOne wOne zeroCaches [[1, 0]] 0 (9/10) (some 0)
        0 5 (fun _ _ => 0)).tokens 0 0 = 1 ∧
      (finalState argsOne wOne zeroCaches [[1, 0]] 0 (9/10) (some 0)
        0 5 (fun _ _ => 0)).tokens 0 1 = 1 := by
    unfold finalState
    rw [show [[(1 : ℤ), 0]].length = 1 from rfl, htl]
    rw [decodeLoop, dif_pos (by norm_num)]
    obtain ⟨ht1, ht0, heos⟩ := step_one_facts
      { tokens := initialGrid [[1, 0]] 0, caches := zeroCaches
        eos_reached := fun _ => false } h00
    rw [if_neg (by
      intro hall
      have h2 := hall 0 (by norm_num)
      rw [heos] at h2
      exact absurd h2 (by decide))]
    rw [decodeLoop, dif_neg (by norm_num)]
    refine ⟨?_, ?_⟩
    · rw [ht0]
      exact h00
    · exact ht1
  rw [text_completion_ok argsOne wOne zeroCaches [[1, 0]] 0 (9/10) (some 0)
    0 5 (fun _ _ => 0) (by decide) (by decide) (by decide)]
  rw [show [[(1 : ℤ), 0]].length = 1 from rfl, htl]
  rw [show List.range 1 = [0] from rfl, show List.range 2 = [0, 1] from rfl]
  simp only [List.map_cons, List.map_nil]
  rw [hst.1, hst.2]
  rfl

/-- getD through the map of cutRow over the grid rows. -/
theorem getD_map_map_range {β : Type} (n k : ℕ) (f : ℕ → β) (g : β → β)
    (d : β) (hk : k < n) :
    (((List.range n).map f).map g).getD k d = g (f k) := by
  rw [List.getD_eq_getElem _ _ (by simpa using hk)]
  simp

/-- C5 counterexample: a call whose prompt contains the pad id (prompt
[1, 0] with pad id 0) comes back with the original prompt position 1
changed from 0 to the sampled token 1, so prompt positions are not
preserved for every call. -/
theorem prompt_not_preserved_with_pad :
    text_completion argsOne wOne zeroCaches [[1, 0]] 0 (9/10) (some 0) 0 5
      (fun _ _ => 0) = Except.ok [[1, 1]] ∧
    ([[(1 : ℤ), 0]].getD 0 []).getD 1 0 = 0 ∧
    ([[(1 : ℤ), 1]].getD 0 []).getD 1 0 ≠
      ([[(1 : ℤ), 0]].getD 0 []).getD 1 0 :=
  ⟨run_one, by decide, by decide⟩

/-- C5 amended: provided no input prompt token equals the pad id, every
original prompt position exactly keeps the input prompt token, for any
temperature, nucleus-p and max_gen_len: in the final token grid, and at
every prompt index still present in the returned (eos-truncated) row; only
pad (generated) grid positions are ever overwritten. -/
theorem text_completion_prompt_preserved (args : ModelArgs)
    (w : TransformerWeights) (caches0 : Caches)
    (prompt_tokens : List (List ℤ)) (temperature top_p : ℝ)
    (max_gen_len : Option ℕ) (pad_id eos_id : ℤ) (u : ℕ → ℕ → ℝ)
    (hnopad : ∀ row ∈ prompt_tokens, ∀ t ∈ row, t ≠ pad_id) :
    (∀ k j, k < prompt_tokens.length →
      j < (prompt_tokens.getD k []).length →
      (finalState args w caches0 prompt_tokens temperature top_p
        max_gen_len pad_id eos_id u).tokens k j =
        (prompt_tokens.getD k []).getD j pad_id) ∧
    (∀ out, text_completion args w caches0 prompt_tokens temperature top_p
        max_gen_len pad_id eos_id u = Except.ok out →
      ∀ k j, k < prompt_tokens.length →
        j < (prompt_tokens.getD k []).length →
        j < (out.getD k []).length →
        (out.getD k []).getD j pad_id =
          (prompt_tokens.getD k []).getD j pad_id) := by
  have hmask : ∀ k j, k < prompt_tokens.length →
      j < (prompt_tokens.getD k []).length →
      promptMask prompt_tokens pad_id k j = true := by
    intro k j hk hj
    have hrow : prompt_tokens.getD k [] ∈ prompt_tokens := by
      rw [List.getD_eq_getElem _ _ hk]
      exact List.getElem_mem _
    have htok : (prompt_tokens.getD k []).getD j pad_id ∈
        prompt_tokens.getD k [] := by
      rw [List.getD_eq_getElem _ _ hj]
      exact List.getElem_mem _
    have hne := hnopad _ hrow _ htok
    unfold promptMask initialGrid
    simpa using hne
  have hgrid : ∀ k j, k < prompt_tokens.length →
      j < (prompt_tokens.getD k []).length →
      (finalState args w caches0 prompt_tokens temperature top_p
        max_gen_len pad_id eos_id u).tokens k j =
        (prompt_tokens.getD k []).getD j pad_id := by
    intro k j hk hj
    rw [finalState_mask_tokens args w caches0 prompt_tokens temperature
      top_p max_gen_len pad_id eos_id u k j (hmask k j hk hj)]
    rfl
  refine ⟨hgrid, ?_⟩
  intro out hout k j hk hj hjout
  have h1 : 0 < prompt_tokens.length := by omega
  by_cases h2 : prompt_tokens.length ≤ args.max_batch_size
  · by_cases h3 : maxPromptLen prompt_tokens ≤ args.max_seq_len
    · rw [text_completion_ok args w caches0 prompt_tokens temperature top_p
        max_gen_len pad_id eos_id u h1 h2 h3] at hout
      injection hout with hX
      subst hX
      rw [getD_map_map_range _ k _ _ [] hk] at hjout ⊢
      have hjtl : j < totalLen args max_gen_len prompt_tokens := by
        have hle := cutRow_length_le eos_id
          ((List.range (totalLen args max_gen_len prompt_tokens)).map
            ((finalState args w caches0 prompt_tokens temperature top_p
              max_gen_len pad_id eos_id u).tokens k))
        have hlen : ((List.range (totalLen args max_gen_len
            prompt_tokens)).map
          ((finalState args w caches0 prompt_tokens temperature top_p
            max_gen_len pad_id eos_id u).tokens k)).length =
            totalLen args max_gen_len prompt_tokens := by simp
        omega
      rw [cutRow_getD _ _ _ _ hjout,
        getD_map_range _ j _ _ hjtl]
      exact hgrid k j hk hj
    · unfold text_completion at hout
      rw [if_pos h2, if_neg (by omega), if_neg h3] at hout
      exact absurd hout (by simp)
  · unfold text_completion at hout
    rw [if_neg h2] at hout
    exact absurd hout (by simp)

/-- Witness for text_completion_prompt_preserved: the single prompt [3]
with pad id 0 (no prompt token equals the pad id). -/
theorem text_completion_prompt_preserved_witness :
    (∀ row ∈ [[(3 : ℤ)]], ∀ t ∈ row, t ≠ 0) ∧
    ((∀ k j, k < [[(3 : ℤ)]].length → j < ([[(3 : ℤ)]].getD k []).length →
      (finalState argsOne wOne zeroCaches [[3]] 0 (9/10) (some 0) 0 5
        (fun _ _ => 0)).tokens k j = ([[(3 : ℤ)]].getD k []).getD j 0) ∧
    (∀ out, text_completion argsOne wOne zeroCaches [[3]] 0 (9/10) (some 0)
        0 5 (fun _ _ => 0) = Except.ok out →
      ∀ k j, k < [[(3 : ℤ)]].length → j < ([[(3 : ℤ)]].getD k []).length →
        j < (out.getD k []).length →
        (out.getD k []).getD j 0 = ([[(3 : ℤ)]].getD k []).getD j 0)) :=
  ⟨by decide, text_completion_prompt_preserved argsOne wOne zeroCaches
    [[3]] 0 (9/10) (some 0) 0 5 (fun _ _ => 0) (by decide)⟩

/-- C6: the generation loop classifies a grid position as a prompt position
exactly when its token differs from the pad id (the mask is literally
tokens != pad_id on the initial grid); consequently an input prompt token
equal to the pad id is treated as a generated slot and can be overwritten
by a sampled token — exhibited by a concrete run — so prompt preservation
holds only under the precondition that no input prompt token equals the pad
id. -/
theorem promptMask_pad_semantics :
    (∀ (prompt_tokens : List (List ℤ)) (pad_id : ℤ) (k j : ℕ),
      promptMask prompt_tokens pad_id k j =
        decide (initialGrid prompt_tokens pad_id k j ≠ pad_id)) ∧
    (∃ (args : ModelArgs) (w : TransformerWeights) (caches0 : Caches)
      (prompt_tokens : List (List ℤ)) (temperature top_p : ℝ)
      (max_gen_len : Option ℕ) (pad_id eos_id : ℤ) (u : ℕ → ℕ → ℝ)
      (out : List (List ℤ)),
      text_completion args w caches0 prompt_tokens temperature top_p
        max_gen_len pad_id eos_id u = Except.ok out ∧
      1 < (prompt_tokens.getD 0 []).length ∧
      (prompt_tokens.getD 0 []).getD 1 pad_id = pad_id ∧
      (out.getD 0 []).getD 1 pad_id ≠ (prompt_tokens.getD 0 []).getD 1
        pad_id) := by
  refine ⟨fun _ _ _ _ => rfl, ?_⟩
  exact ⟨argsOne, wOne, zeroCaches, [[1, 0]], 0, 9/10, some 0, 0, 5,
    fun _ _ => 0, [[1, 1]], run_one, by decide, by decide, by decide⟩

/-- The post-loop truncation "cut at the first eos (exclusive), else keep
the whole row" is exactly takeWhile (≠ eos). -/
theorem cutRow_eq_takeWhile (eos : ℤ) (row : List ℤ) :
    cutRow eos row = row.takeWhile (fun t => decide (t ≠ eos)) := by
  induction row with
  | nil => rfl
  | cons a l ih =>
    rw [List.takeWhile_cons]
    by_cases ha : a = eos
    · subst ha
      rw [if_neg (by simp)]
      unfold cutRow
      rw [if_pos (by simp [List.contains_cons]), List.indexOf_cons_self]
      rfl
    · rw [if_pos (by simpa using ha), ← ih]
      unfold cutRow
      by_cases hc : l.contains eos
      · rw [if_pos (by
            rw [List.contains_cons]
            simp only [Bool.or_eq_true]
            exact Or.inr hc), if_pos hc,
          List.indexOf_cons_ne l ha, List.take_succ_cons]
      · have hno : ¬ (((a :: l).contains eos) = true) := by
          rw [List.contains_cons]
          simp only [Bool.or_eq_true, beq_iff_eq, not_or]
          exact ⟨fun h => ha h.symm, hc⟩
        rw [if_neg hno, if_neg hc]

/-- C8: each returned token sequence equals its grid row truncated strictly
before its first end-of-sequence token (cutRow is takeWhile (≠ eos), so the
marker and everything after it are excluded, and a row without eos is
returned whole); the loop breaks right after any step that leaves every
batch row's eos flag set; and a step can only set the flag at a generated
(non-prompt) position — at mask-true positions the flag is unchanged. -/
theorem text_completion_truncation_early_stop (args : ModelArgs)
    (w : TransformerWeights) (caches0 : Caches)
    (prompt_tokens : List (List ℤ)) (temperature top_p : ℝ)
    (max_gen_len : Option ℕ) (pad_id eos_id : ℤ) (u : ℕ → ℕ → ℝ)
    (h1 : 0 < prompt_tokens.length)
    (h2 : prompt_tokens.length ≤ args.max_batch_size)
    (h3 : maxPromptLen prompt_tokens ≤ args.max_seq_len) :
    (text_completion args w caches0 prompt_tokens temperature top_p
      max_gen_len pad_id eos_id u =
      Except.ok ((List.range prompt_tokens.length).map
        (fun k => ((List.range (totalLen args max_gen_len
            prompt_tokens)).map
          ((finalState args w caches0 prompt_tokens temperature top_p
            max_gen_len pad_id eos_id u).tokens k)).takeWhile
          (fun t => decide (t ≠ eos_id))))) ∧
    (∀ (cur_pos : ℕ) (st : DecodeState),
      cur_pos < totalLen args max_gen_len prompt_tokens →
      (∀ b < prompt_tokens.length,
        (decodeStep args w (promptMask prompt_tokens pad_id) temperature
          top_p u eos_id prompt_tokens.length cur_pos st).eos_reached b =
          true) →
      decodeLoop args w (promptMask prompt_tokens pad_id) temperature top_p
        u eos_id prompt_tokens.length
        (totalLen args max_gen_len prompt_tokens) cur_pos st =
        decodeStep args w (promptMask prompt_tokens pad_id) temperature
          top_p u eos_id prompt_tokens.length cur_pos st) ∧
    (∀ (cur_pos : ℕ) (st : DecodeState) (b : ℕ),
      promptMask prompt_tokens pad_id b cur_pos = true →
      (decodeStep args w (promptMask prompt_tokens pad_id) temperature
        top_p u eos_id prompt_tokens.length cur_pos st).eos_reached b =
        st.eos_reached b) := by
  refine ⟨?_, ?_, ?_⟩
  · rw [text_completion_ok args w caches0 prompt_tokens temperature top_p
      max_gen_len pad_id eos_id u h1 h2 h3]
    refine congrArg Except.ok ?_
    rw [List.map_map]
    refine List.map_congr_left ?_
    intro k _
    exact cutRow_eq_takeWhile eos_id _
  · intro cur_pos st hlt hall
    rw [decodeLoop, dif_pos hlt, if_pos hall]
  · intro cur_pos st b hm
    simp [decodeStep, hm]

/-- Witness for text_completion_truncation_early_stop: the returned-rows
equation at the concrete one-token prompt [3]. -/
theorem text_completion_truncation_witness :
    text_completion argsOne wOne zeroCaches [[3]] 0 (9/10) (some 0) 0 5
      (fun _ _ => 0) =
      Except.ok ((List.range ([[(3 : ℤ)]].length)).map
        (fun k => ((List.range (totalLen argsOne (some 0) [[3]])).map
          ((finalState argsOne wOne zeroCaches [[3]] 0 (9/10) (some 0) 0 5
            (fun _ _ => 0)).tokens k)).takeWhile
          (fun t => decide (t ≠ 5)))) :=
  (text_completion_truncation_early_stop argsOne wOne zeroCaches [[3]] 0
    (9/10) (some 0) 0 5 (fun _ _ => 0) (by decide) (by decide)
    (by decide)).1

/-- C3: in every iteration the decode loop passes the token at grid index
cur_pos - 1 to the forward call with start position cur_pos.  Read at
cur_pos = i + 1: the key/value projection of the token at grid index i is
written at cache position i + 1, the key rotated with rotary-table row
i + 1; the step writes no other cache position of any layer; and cache
position 0 is never written during a generation call — the whole decode
loop, entered at cur_pos = 1, leaves position 0 of every layer's caches at
its initial contents. -/
theorem decode_loop_cache_shift (args : ModelArgs)
    (w : TransformerWeights) (prompt_tokens_mask : ℕ → ℕ → Bool)
    (temperature top_p : ℝ) (u : ℕ → ℕ → ℝ) (eos_id : ℤ)
    (batch_size : ℕ) :
    (∀ (i : ℕ) (st : DecodeState) (b h d : ℕ), b < batch_size →
      0 < args.n_layers →
      ((decodeStep args w prompt_tokens_mask temperature top_p u eos_id
          batch_size (i + 1) st).caches 0).1 b (i + 1) h d =
        rotary_embeddings
          (fun d2 => linear args.dim (w.layers 0).attention.wk
            (RMSNorm.forward args.dim args.norm_eps
              (w.layers 0).attention_norm_weight
              (fun dd => w.tok_embeddings (st.tokens b i) dd))
            (h * (args.dim / args.n_heads) + d2))
          (Transformer.freqs_complex args (i + 1)) d) ∧
    (∀ (cur_pos : ℕ) (st : DecodeState) (l b pos h d : ℕ),
      pos ≠ cur_pos →
      ((decodeStep args w prompt_tokens_mask temperature top_p u eos_id
          batch_size cur_pos st).caches l).1 b pos h d =
        (st.caches l).1 b pos h d ∧
      ((decodeStep args w prompt_tokens_mask temperature top_p u eos_id
          batch_size cur_pos st).caches l).2 b pos h d =
        (st.caches l).2 b pos h d) ∧
    (∀ (total_len cur_pos : ℕ) (st : DecodeState) (l b h d : ℕ),
      1 ≤ cur_pos →
      ((decodeLoop args w prompt_tokens_mask temperature top_p u eos_id
          batch_size total_len cur_pos st).caches l).1 b 0 h d =
        (st.caches l).1 b 0 h d ∧
      ((decodeLoop args w prompt_tokens_mask temperature top_p u eos_id
          batch_size total_len cur_pos st).caches l).2 b 0 h d =
        (st.caches l).2 b 0 h d) := by
  refine ⟨?_, ?_, ?_⟩
  · intro i st b h d hb hl0
    have hw := (decodeStep_cache_write0 args w prompt_tokens_mask
      temperature top_p u eos_id batch_size (i + 1) st b h d hb hl0).1
    simpa using hw
  · intro cur_pos st l b pos h d hpos
    exact decodeStep_cache_frame args w prompt_tokens_mask temperature
      top_p u eos_id batch_size cur_pos st l b pos h d hpos
  · intro total_len cur_pos st l b h d hc
    exact decodeLoop_invariant args w prompt_tokens_mask temperature top_p
      u eos_id batch_size total_len 1
      (fun s => (s.caches l).1 b 0 h d = (st.caches l).1 b 0 h d ∧
        (s.caches l).2 b 0 h d = (st.caches l).2 b 0 h d)
      (fun cur st2 hcur _ hP => by
        obtain ⟨hk, hv⟩ := decodeStep_cache_frame args w prompt_tokens_mask
          temperature top_p u eos_id batch_size cur st2 l b 0 h d
          (by omega)
        exact ⟨hk.trans hP.1, hv.trans hP.2⟩)
      cur_pos st hc ⟨rfl, rfl⟩

/-- Witness for decode_loop_cache_shift at the one-layer two-dimensional
configuration: the layer-0 write equation at step i = 0 on a fresh state. -/
theorem decode_loop_cache_shift_witness :
    0 < 1 ∧ 0 < argsTiny.n_layers ∧
    ((decodeStep argsTiny wOne (fun _ _ => false) 0 0 (fun _ _ => 0) 5 1
        (0 + 1)
        { tokens := fun _ _ => 0, caches := zeroCaches
          eos_reached := fun _ => false }).caches 0).1 0 (0 + 1) 0 0 =
      rotary_embeddings
        (fun d2 => linear argsTiny.dim (wOne.layers 0).attention.wk
          (RMSNorm.forward argsTiny.dim argsTiny.norm_eps
            (wOne.layers 0).attention_norm_weight
            (fun dd => wOne.tok_embeddings
              (DecodeState.tokens
                { tokens := fun _ _ => 0, caches := zeroCaches
                  eos_reached := fun _ => false } 0 0) dd))
          (0 * (argsTiny.dim / argsTiny.n_heads) + d2))
        (Transformer.freqs_complex argsTiny (0 + 1)) 0 :=
  ⟨by decide, by decide,
   (decode_loop_cache_shift argsTiny wOne (fun _ _ => false) 0 0
     (fun _ _ => 0) 5 1).1 0
     { tokens := fun _ _ => 0, caches := zeroCaches
       eos_reached := fun _ => false } 0 0 0 (by decide) (by decide)⟩

theorem fullPassOut_eq_one : fullPassOut = 1 := by
  unfold fullPassOut
  simp [SelfAttention.forward, argsTiny, attnIdWeights, idMat, linear,
    repeat_kv, xUnit, Finset.sum_range_succ, Finset.sum_range_zero,
    Real.exp_ne_zero, div_self]

theorem exp_ratio_lt_one (b : ℝ) :
    Real.exp b / (1 + Real.exp b) < 1 := by
  rw [div_lt_one (by positivity)]
  linarith

theorem cachePathOut_lt_one : cachePathOut < 1 := by
  unfold cachePathOut
  simp [SelfAttention.forward, argsTiny, attnIdWeights, idMat, linear,
    repeat_kv, xUnit, zeroCache, Finset.sum_range_succ,
    Finset.sum_range_zero]
  exact exp_ratio_lt_one _

/-- C1: the incremental cache-based path does not reproduce the no-cache
full forward pass.  For a single-token sequence, one fresh full pass over
position 0 (start_pos = 0) yields attention output (1, 0) — softmax over
the one written slot puts weight 1 on its value.  The decode loop's first
iteration instead passes that token with start_pos = cur_pos = 1, so its
key/value land at cache slot 1 rotated with table row 1 while slot 0 is
the never-written zero entry; the query then also attends to the zero
slot, and the output component is exp(s1) / (exp(s0) + exp(s1)) < 1.  The
two paths disagree even at the very first decoded position. -/
theorem attention_cache_path_differs : cachePathOut ≠ fullPassOut := by
  rw [fullPassOut_eq_one]
  exact ne_of_lt cachePathOut_lt_one
